import Mathlib

/-!
Shallow embedding of `src/imessage-bot/bot.py` (iMessage AI bot).

The bot polls the Messages.app sqlite database, dedups rows by ROWID in an
in-memory set, keeps a per-phone conversation history, calls the Anthropic
API with the last 20 turns, and sends the reply through an AppleScript
invocation of Messages.app.

Modelling choices:
- time is integer Unix seconds; Apple dates are integer nanoseconds since
  2001-01-01 (the float arithmetic of the script is modelled exactly on Int);
- the sqlite query is a filter + sort by date descending + take 20;
- the Anthropic call is an external oracle `respond` indexed by the number of
  prior calls, returning `none` when the call raises; the `osascript`
  invocation is an external oracle `sendOk` indexed by the number of prior
  invocations, returning the process exit success;
- `BotState` carries the two python globals (`processed_messages`,
  `conversations`) plus observable traces: the histories passed to the
  responder, the ROWIDs for which a responder call was attempted, the
  (recipient, body) pairs handed to `send_imessage`, and the error lines
  printed by the per-message handler.
-/

/-- Apostrophe character (U+0027), written via its code point. -/
def apos : Char := Char.ofNat 39

/-- Double-quote character (U+0022). -/
def dq : Char := Char.ofNat 34

/-- Backslash character (U+005C). -/
def bs : Char := Char.ofNat 92

/-- One row of the `message JOIN handle` query of `get_new_messages`:
`(message.ROWID, message.text, message.date, message.is_from_me, handle.id)`. -/
structure Row where
  rowid : Nat
  text : Option String
  date : Int
  is_from_me : Bool
  phone : String
  deriving DecidableEq

/-- One conversation turn, a `{"role": r, "content": c}` dict. -/
structure Turn where
  role : String
  content : String
  deriving DecidableEq

/-- The python globals of bot.py plus the observable traces of a run. -/
structure BotState where
  processed : List Nat
  conversations : String → List Turn
  requests : List (List Turn)
  attempts : List Nat
  sent : List (String × String)
  errLog : List String

/-- State at interpreter start: empty set, empty dict, empty traces. -/
def initState : BotState :=
  { processed := [], conversations := fun _ => [], requests := [],
    attempts := [], sent := [], errLog := [] }

/-- The watermark bound computed on every call of `get_new_messages`:
`(time.time() - 978307200 - 300) * 1000000000`, i.e. the Apple-epoch
nanosecond timestamp of five minutes before the current time. -/
def appleWatermark (now : Int) : Int :=
  (now - 978307200 - 300) * 1000000000

/-- The WHERE clause of the query:
`is_from_me = 0 AND text IS NOT NULL AND date > ?`. -/
def matchesQuery (w : Int) (r : Row) : Bool :=
  !r.is_from_me && r.text.isSome && decide (w < r.date)

/-- Insert a row into a list sorted by date descending. -/
def insertByDateDesc (r : Row) : List Row → List Row
  | [] => [r]
  | x :: xs => if x.date ≤ r.date then r :: x :: xs else x :: insertByDateDesc r xs

/-- Sort rows by date descending (`ORDER BY message.date DESC`). -/
def sortByDateDesc : List Row → List Row
  | [] => []
  | x :: xs => insertByDateDesc x (sortByDateDesc xs)

/-- `get_new_messages`: rows matching the WHERE clause, ordered by date
descending, limited to 20 (`LIMIT 20`), against watermark `appleWatermark now`. -/
def get_new_messages (db : List Row) (now : Int) : List Row :=
  (sortByDateDesc ((db.filter (matchesQuery (appleWatermark now))))).take 20

/-- `str.replace` for a single-character pattern, as used twice in
`send_imessage` on the outgoing message. -/
def replaceChar (pat : Char) (rep : List Char) : List Char → List Char
  | [] => []
  | c :: rest => (if c = pat then rep else [c]) ++ replaceChar pat rep rest

/-- The escaping of `send_imessage`:
`message.replace('"', '\\"').replace("'", "'\"'\"'")` — first every
double quote becomes backslash + double quote, then every apostrophe
becomes the five characters apostrophe, quote, apostrophe, quote, apostrophe. -/
def escape_message (s : List Char) : List Char :=
  replaceChar apos [apos, dq, apos, dq, apos] (replaceChar dq [bs, dq] s)

/-- How AppleScript reads a double-quoted string literal: characters up to the
first unescaped double quote form the content, a backslash escapes the next
character; returns (content, remaining script text), `none` if unterminated. -/
def parseASContent : List Char → Option (List Char × List Char)
  | [] => none
  | c :: rest =>
    if c = dq then some ([], rest)
    else if c = bs then
      match rest with
      | [] => none
      | c2 :: rest2 => (parseASContent rest2).map (fun p => (c2 :: p.1, p.2))
    else (parseASContent rest).map (fun p => (c :: p.1, p.2))

/-- The body the channel receives: the script embeds
`send "{escaped_message}"`, so AppleScript parses the escaped body followed
by the closing double quote; the first component is the string delivered,
the second is what is left before the intended closing quote. -/
def channelReceives (body : List Char) : Option (List Char × List Char) :=
  parseASContent (escape_message body ++ [dq])

/-- The fixed fallback apology sent when `get_ai_response` raises. -/
def fallback : String :=
  "Sorry, I" ++ String.mk [apos] ++ "m having trouble right now. Try again in a moment!"

/-- `send_imessage`: builds and runs the osascript invocation; the exit status
is the oracle `sendOk` at the index of this invocation; returns True on
success and False on `CalledProcessError`, and only records the invocation —
it touches neither the ledger nor any conversation. -/
def send_imessage (sendOk : Nat → Bool) (st : BotState) (phone message : String) :
    Bool × BotState :=
  (sendOk st.sent.length, { st with sent := st.sent ++ [(phone, message)] })

/-- The context window of `get_ai_response`: `conversations[phone][-20:]`. -/
def window (l : List Turn) : List Turn :=
  l.drop (l.length - 20)

/-- Pointwise update of the conversations dict. -/
def updateConv (m : String → List Turn) (phone : String) (conv : List Turn) :
    String → List Turn :=
  fun p => if p = phone then conv else m p

/-- `get_ai_response`: builds the client (raises before touching any state when
the key is absent), appends the user turn, windows the history, calls the
responder oracle (indexed by the number of prior calls), and on success
appends the assistant turn; returns `none` exactly when python raises. -/
def get_ai_response (key : Option String) (respond : Nat → List Turn → Option String)
    (st : BotState) (phone message : String) : Option String × BotState :=
  match key with
  | none => (none, st)
  | some _ =>
    let conv1 := st.conversations phone ++ [⟨"user", message⟩]
    let history := window conv1
    let st1 : BotState :=
      { st with conversations := updateConv st.conversations phone conv1,
                requests := st.requests ++ [history] }
    match respond st.requests.length history with
    | none => (none, st1)
    | some resp =>
        (some resp,
         { st1 with conversations :=
             updateConv st1.conversations phone (conv1 ++ [⟨"assistant", resp⟩]) })

/-- The per-message body of the poll loop (bot.py lines 136-156): skip ids
already in the ledger, mark the id seen before anything else, get the AI
response, send it, and on any exception log and send the fallback. The
`attempts` trace records the id when a responder call was actually made
(the client was constructed, i.e. the key is present). -/
def processMessage (key : Option String) (respond : Nat → List Turn → Option String)
    (sendOk : Nat → Bool) (st : BotState) (r : Row) : BotState :=
  if r.rowid ∈ st.processed then st
  else
    let st0 : BotState := { st with processed := r.rowid :: st.processed }
    let pr := get_ai_response key respond st0 r.phone (r.text.getD "")
    let st1 : BotState :=
      { pr.2 with attempts := pr.2.attempts ++ (if key.isSome then [r.rowid] else []) }
    match pr.1 with
    | some resp => (send_imessage sendOk st1 r.phone resp).2
    | none =>
        (send_imessage sendOk
          { st1 with errLog := st1.errLog ++ ["Error getting AI response"] }
          r.phone fallback).2

/-- One poll tick: fetch and handle each row in the fetched order. -/
def tick (key : Option String) (respond : Nat → List Turn → Option String)
    (sendOk : Nat → Bool) (db : List Row) (now : Int) (st : BotState) : BotState :=
  (get_new_messages db now).foldl (processMessage key respond sendOk) st

/-- Set-semantics insertion into the ledger (`processed_messages.add`). -/
def insertId (id : Nat) (l : List Nat) : List Nat :=
  if id ∈ l then l else id :: l

/-- The initial scan (bot.py lines 126-129): mark every fetched ROWID as
processed without replying. -/
def startupScan (db : List Row) (now : Int) (st : BotState) : BotState :=
  (get_new_messages db now).foldl
    (fun s m => { s with processed := insertId m.rowid s.processed }) st

/-- Run of the poll loop over a list of ticks, each tick seeing a database
snapshot and a current time. -/
def runTicks (key : Option String) (respond : Nat → List Turn → Option String)
    (sendOk : Nat → Bool) (ticks : List (List Row × Int)) (st : BotState) : BotState :=
  ticks.foldl (fun s p => tick key respond sendOk p.1 p.2 s) st

/-- A whole process lifetime: startup scan, then the poll loop. -/
def runBot (key : Option String) (respond : Nat → List Turn → Option String)
    (sendOk : Nat → Bool) (startDb : List Row) (startNow : Int)
    (ticks : List (List Row × Int)) : BotState :=
  runTicks key respond sendOk ticks (startupScan startDb startNow initState)

/-! ## Lemmas about the source query -/

lemma mem_insertByDateDesc {a r : Row} {l : List Row} :
    a ∈ insertByDateDesc r l ↔ a = r ∨ a ∈ l := by
  induction l with
  | nil => simp [insertByDateDesc]
  | cons x xs ih =>
    simp only [insertByDateDesc]
    split
    · simp [List.mem_cons]
    · simp only [List.mem_cons, ih]
      tauto

lemma mem_sortByDateDesc {a : Row} {l : List Row} :
    a ∈ sortByDateDesc l ↔ a ∈ l := by
  induction l with
  | nil => simp [sortByDateDesc]
  | cons x xs ih => simp [sortByDateDesc, mem_insertByDateDesc, ih]

/-- Rows sorted by date descending (later dates first). -/
def SortedDesc : List Row → Prop :=
  List.Pairwise (fun a b => b.date ≤ a.date)

lemma sortedDesc_insert {r : Row} {l : List Row} (h : SortedDesc l) :
    SortedDesc (insertByDateDesc r l) := by
  induction l with
  | nil => simp [insertByDateDesc, SortedDesc]
  | cons x xs ih =>
    rw [SortedDesc, List.pairwise_cons] at h
    obtain ⟨hx, hxs⟩ := h
    simp only [insertByDateDesc]
    split
    · rename_i hle
      rw [SortedDesc, List.pairwise_cons]
      refine ⟨?_, List.pairwise_cons.mpr ⟨hx, hxs⟩⟩
      intro b hb
      rcases List.mem_cons.mp hb with rfl | hb
      · exact hle
      · exact le_trans (hx b hb) hle
    · rename_i hgt
      rw [SortedDesc, List.pairwise_cons]
      refine ⟨?_, ih hxs⟩
      intro b hb
      rcases mem_insertByDateDesc.mp hb with rfl | hb
      · exact le_of_lt (lt_of_not_le hgt)
      · exact hx b hb

lemma sortedDesc_sort (l : List Row) : SortedDesc (sortByDateDesc l) := by
  induction l with
  | nil => simp [sortByDateDesc, SortedDesc]
  | cons x xs ih => exact sortedDesc_insert ih

lemma sortedDesc_get_new_messages (db : List Row) (now : Int) :
    SortedDesc (get_new_messages db now) :=
  List.Pairwise.sublist (List.take_sublist _ _) (sortedDesc_sort _)

lemma mem_get_new_messages {r : Row} {db : List Row} {now : Int}
    (h : r ∈ get_new_messages db now) :
    r ∈ db ∧ matchesQuery (appleWatermark now) r = true := by
  have h1 : r ∈ sortByDateDesc (db.filter (matchesQuery (appleWatermark now))) :=
    (List.take_sublist _ _).subset h
  have h2 := mem_sortByDateDesc.mp h1
  exact ⟨List.mem_of_mem_filter h2, List.of_mem_filter h2⟩

lemma matchesQuery_iff {w : Int} {r : Row} :
    matchesQuery w r = true ↔
      r.is_from_me = false ∧ r.text.isSome = true ∧ w < r.date := by
  simp [matchesQuery, Bool.and_eq_true, Bool.not_eq_true', decide_eq_true_iff,
    and_assoc]

/-! ## Claims about the fetch -/

/-- Claim C7 (amended): every message returned by a source fetch was not
authored by the bot, has a non-NULL (present) text body, and a timestamp
strictly greater than the watermark, and each fetch returns at most 20
messages. (The original claim said non-empty body; the query only checks
`text IS NOT NULL`.) -/
theorem claim_C7 (db : List Row) (now : Int) :
    (get_new_messages db now).length ≤ 20 ∧
    ∀ r ∈ get_new_messages db now,
      r.is_from_me = false ∧ r.text.isSome = true ∧ appleWatermark now < r.date := by
  refine ⟨List.length_take_le _ _, ?_⟩
  intro r hr
  exact matchesQuery_iff.mp (mem_get_new_messages hr).2

/-- Claim C7 witness: the amended statement evaluated on a one-row database. -/
theorem claim_C7_witness :
    (get_new_messages [⟨1, some "hello", 100, false, "p"⟩] 978307500).length ≤ 20 ∧
    ∀ r ∈ get_new_messages [⟨1, some "hello", 100, false, "p"⟩] 978307500,
      r.is_from_me = false ∧ r.text.isSome = true ∧
        appleWatermark 978307500 < r.date :=
  claim_C7 [⟨1, some "hello", 100, false, "p"⟩] 978307500

/-- Claim C7 counterexample: a row whose text is the empty string (non-NULL
but empty) passes the `text IS NOT NULL` filter and is returned by the fetch,
so "its text body is non-empty" fails as stated. -/
theorem claim_C7_cex :
    get_new_messages [⟨1, some "", 50, false, "p"⟩] 978307500
      = [⟨1, some "", 50, false, "p"⟩] ∧
    (⟨1, some "", 50, false, "p"⟩ : Row).text = some "" := by
  exact ⟨by decide, rfl⟩

/-- Claim C3: refuted on the code. The body consisting of the four characters
`i`, double quote, apostrophe, `s` (it contains a double quote and an
apostrophe) is received by the channel as the three characters `i`, double
quote, apostrophe — truncated — with five stray characters left in the script
before the intended closing quote, because the apostrophe is expanded to the
POSIX-shell idiom apostrophe-quote-apostrophe-quote-apostrophe whose double
quotes are unescaped inside the AppleScript double-quoted literal. -/
theorem claim_C3 :
    channelReceives ['i', dq, apos, 's']
      = some (['i', dq, apos], [apos, dq, apos, 's', dq]) ∧
    some (['i', dq, apos], [apos, dq, apos, 's', dq])
      ≠ some (['i', dq, apos, 's'], ([] : List Char)) := by
  exact ⟨by decide, by decide⟩

/-! ## Characterization of one loop iteration -/

lemma pm_skip {key : Option String} {respond : Nat → List Turn → Option String}
    {sendOk : Nat → Bool} {st : BotState} {r : Row}
    (h : r.rowid ∈ st.processed) :
    processMessage key respond sendOk st r = st := by
  simp [processMessage, h]

lemma pm_none_key {respond : Nat → List Turn → Option String} {sendOk : Nat → Bool}
    {st : BotState} {r : Row} (hnew : r.rowid ∉ st.processed) :
    processMessage none respond sendOk st r =
      { st with processed := r.rowid :: st.processed,
                sent := st.sent ++ [(r.phone, fallback)],
                errLog := st.errLog ++ ["Error getting AI response"] } := by
  simp [processMessage, get_ai_response, send_imessage, hnew]

lemma pm_some_fail {k : String} {respond : Nat → List Turn → Option String}
    {sendOk : Nat → Bool} {st : BotState} {r : Row}
    (hnew : r.rowid ∉ st.processed)
    (hfail : respond st.requests.length
        (window (st.conversations r.phone ++ [⟨"user", r.text.getD ""⟩])) = none) :
    processMessage (some k) respond sendOk st r =
      { st with
          processed := r.rowid :: st.processed,
          conversations := updateConv st.conversations r.phone
            (st.conversations r.phone ++ [⟨"user", r.text.getD ""⟩]),
          requests := st.requests
            ++ [window (st.conversations r.phone ++ [⟨"user", r.text.getD ""⟩])],
          attempts := st.attempts ++ [r.rowid],
          sent := st.sent ++ [(r.phone, fallback)],
          errLog := st.errLog ++ ["Error getting AI response"] } := by
  simp [processMessage, get_ai_response, send_imessage, hnew, hfail]

lemma pm_some_succ {k resp : String} {respond : Nat → List Turn → Option String}
    {sendOk : Nat → Bool} {st : BotState} {r : Row}
    (hnew : r.rowid ∉ st.processed)
    (hsucc : respond st.requests.length
        (window (st.conversations r.phone ++ [⟨"user", r.text.getD ""⟩])) = some resp) :
    processMessage (some k) respond sendOk st r =
      { st with
          processed := r.rowid :: st.processed,
          conversations := updateConv
            (updateConv st.conversations r.phone
              (st.conversations r.phone ++ [⟨"user", r.text.getD ""⟩]))
            r.phone
            ((st.conversations r.phone ++ [⟨"user", r.text.getD ""⟩])
              ++ [⟨"assistant", resp⟩]),
          requests := st.requests
            ++ [window (st.conversations r.phone ++ [⟨"user", r.text.getD ""⟩])],
          attempts := st.attempts ++ [r.rowid],
          sent := st.sent ++ [(r.phone, resp)] } := by
  simp [processMessage, get_ai_response, send_imessage, hnew, hsucc]

lemma foldl_pres {α β : Type} (f : β → α → β) (P : β → Prop) :
    ∀ (l : List α) (b : β), (∀ b a, a ∈ l → P b → P (f b a)) → P b → P (l.foldl f b) := by
  intro l
  induction l with
  | nil => intro b _ hb; simpa using hb
  | cons x xs ih =>
    intro b h hb
    simp only [List.foldl_cons]
    exact ih _ (fun b a ha => h b a (List.mem_cons_of_mem _ ha))
      (h b x (List.mem_cons_self _ _) hb)

/-! ## Claims about single operations -/

/-- Claim C10: the sink returns the invocation's exit status as a Bool (True
on success, False on failure) instead of raising, it records the delivery but
mutates neither the ledger nor any conversation, and the entire loop state
after handling a message is independent of whether its delivery succeeded. -/
theorem claim_C10 (sendOk sOk1 sOk2 : Nat → Bool) (key : Option String)
    (respond : Nat → List Turn → Option String) (st : BotState)
    (phone msg : String) (r : Row) :
    (send_imessage sendOk st phone msg).1 = sendOk st.sent.length ∧
    (send_imessage sendOk st phone msg).2.processed = st.processed ∧
    (send_imessage sendOk st phone msg).2.conversations = st.conversations ∧
    (send_imessage sendOk st phone msg).2.sent = st.sent ++ [(phone, msg)] ∧
    processMessage key respond sOk1 st r = processMessage key respond sOk2 st r :=
  ⟨rfl, rfl, rfl, rfl, rfl⟩

/-- Claim C4: the history recorded as passed to the responder is exactly the
last-20 window of the sender's stored conversation (which at call time ends
with the just-appended user turn); the window has length `min 20 (length)`
(so the whole conversation when it is shorter than 20) and is a suffix of the
stored turns; and the stored earlier turns survive unmodified as a prefix of
the sender's conversation after the call. -/
theorem claim_C4 (k : String) (respond : Nat → List Turn → Option String)
    (st : BotState) (phone msg : String) :
    (get_ai_response (some k) respond st phone msg).2.requests
      = st.requests ++ [window (st.conversations phone ++ [⟨"user", msg⟩])] ∧
    (window (st.conversations phone ++ [⟨"user", msg⟩])).length
      = min 20 (st.conversations phone ++ [(⟨"user", msg⟩ : Turn)]).length ∧
    (∃ pre, pre ++ window (st.conversations phone ++ [⟨"user", msg⟩])
        = st.conversations phone ++ [⟨"user", msg⟩]) ∧
    (∃ t, (get_ai_response (some k) respond st phone msg).2.conversations phone
        = st.conversations phone ++ t) := by
  refine ⟨?_, ?_, ?_, ?_⟩
  · rcases hr : respond st.requests.length
        (window (st.conversations phone ++ [⟨"user", msg⟩])) with _ | resp <;>
      simp [get_ai_response, hr]
  · simp only [window, List.length_drop]
    omega
  · exact ⟨(st.conversations phone ++ [(⟨"user", msg⟩ : Turn)]).take
      ((st.conversations phone ++ [(⟨"user", msg⟩ : Turn)]).length - 20),
      List.take_append_drop _ _⟩
  · rcases hr : respond st.requests.length
        (window (st.conversations phone ++ [⟨"user", msg⟩])) with _ | resp
    · exact ⟨[(⟨"user", msg⟩ : Turn)], by simp [get_ai_response, hr, updateConv]⟩
    · exact ⟨[(⟨"user", msg⟩ : Turn), (⟨"assistant", resp⟩ : Turn)],
        by simp [get_ai_response, hr, updateConv]⟩

/-- Claim C5: when the responder call for a fresh message raises, the loop
sends exactly one fallback apology to that message's sender, appends the user
turn but no assistant turn to that sender's conversation, logs the error, and
continues (the message is marked processed and the step is a total function). -/
theorem claim_C5 (k : String) (respond : Nat → List Turn → Option String)
    (sendOk : Nat → Bool) (st : BotState) (r : Row)
    (hnew : r.rowid ∉ st.processed)
    (hfail : respond st.requests.length
        (window (st.conversations r.phone ++ [⟨"user", r.text.getD ""⟩])) = none) :
    (processMessage (some k) respond sendOk st r).sent
        = st.sent ++ [(r.phone, fallback)] ∧
    (processMessage (some k) respond sendOk st r).conversations r.phone
        = st.conversations r.phone ++ [⟨"user", r.text.getD ""⟩] ∧
    (processMessage (some k) respond sendOk st r).errLog
        = st.errLog ++ ["Error getting AI response"] ∧
    (processMessage (some k) respond sendOk st r).processed
        = r.rowid :: st.processed := by
  rw [pm_some_fail hnew hfail]
  exact ⟨rfl, by simp [updateConv], rfl, rfl⟩

/-- Claim C5 witness: a fresh message whose responder call fails, evaluated
from the initial state. -/
theorem claim_C5_witness :
    (processMessage (some "k") (fun _ _ => none) (fun _ => true) initState
        ⟨1, some "hi", 100, false, "p"⟩).sent
        = initState.sent ++ [("p", fallback)] ∧
    (processMessage (some "k") (fun _ _ => none) (fun _ => true) initState
        ⟨1, some "hi", 100, false, "p"⟩).conversations "p"
        = initState.conversations "p" ++ [⟨"user", "hi"⟩] ∧
    (processMessage (some "k") (fun _ _ => none) (fun _ => true) initState
        ⟨1, some "hi", 100, false, "p"⟩).errLog
        = initState.errLog ++ ["Error getting AI response"] ∧
    (processMessage (some "k") (fun _ _ => none) (fun _ => true) initState
        ⟨1, some "hi", 100, false, "p"⟩).processed
        = 1 :: initState.processed :=
  claim_C5 "k" (fun _ _ => none) (fun _ => true) initState
    ⟨1, some "hi", 100, false, "p"⟩ (by decide) rfl

/-- Claim C2 (amended): a missing responder credential is not detected at
startup and does not keep the process out of the poll loop; instead, for every
fresh message handled inside the loop the client construction fails, the
failure is caught per-message, the error is logged, the fallback apology is
sent to that sender, and no responder attempt and no conversation change
occur — the message is still marked processed. -/
theorem claim_C2 (respond : Nat → List Turn → Option String) (sendOk : Nat → Bool)
    (st : BotState) (r : Row) (hnew : r.rowid ∉ st.processed) :
    (processMessage none respond sendOk st r).sent
        = st.sent ++ [(r.phone, fallback)] ∧
    (processMessage none respond sendOk st r).attempts = st.attempts ∧
    (processMessage none respond sendOk st r).conversations = st.conversations ∧
    (processMessage none respond sendOk st r).processed = r.rowid :: st.processed ∧
    (processMessage none respond sendOk st r).errLog
        = st.errLog ++ ["Error getting AI response"] := by
  rw [pm_none_key hnew]
  exact ⟨rfl, rfl, rfl, rfl, rfl⟩

/-- Claim C2 witness: the amended statement evaluated on one fresh message
from the initial state. -/
theorem claim_C2_witness :
    (processMessage none (fun _ _ => some "ok") (fun _ => true) initState
        ⟨1, some "hi", 100, false, "p"⟩).sent
        = initState.sent ++ [("p", fallback)] ∧
    (processMessage none (fun _ _ => some "ok") (fun _ => true) initState
        ⟨1, some "hi", 100, false, "p"⟩).attempts = initState.attempts ∧
    (processMessage none (fun _ _ => some "ok") (fun _ => true) initState
        ⟨1, some "hi", 100, false, "p"⟩).conversations = initState.conversations ∧
    (processMessage none (fun _ _ => some "ok") (fun _ => true) initState
        ⟨1, some "hi", 100, false, "p"⟩).processed = 1 :: initState.processed ∧
    (processMessage none (fun _ _ => some "ok") (fun _ => true) initState
        ⟨1, some "hi", 100, false, "p"⟩).errLog
        = initState.errLog ++ ["Error getting AI response"] :=
  claim_C2 (fun _ _ => some "ok") (fun _ => true) initState
    ⟨1, some "hi", 100, false, "p"⟩ (by decide)

/-- Claim C2 counterexample: with the credential absent, the process still
enters the poll loop — a tick processes a fresh message, the credential
failure is handled per-message inside the loop, and the fallback apology is
sent; this refutes "the process must not enter the poll loop, and the
credential failure is never handled per-message inside the loop". -/
theorem claim_C2_cex :
    (runBot none (fun _ _ => some "ok") (fun _ => true) [] 978307500
        [([⟨1, some "hello", 100, false, "p"⟩], 978307500)]).sent
      = [("p", fallback)] ∧
    (runBot none (fun _ _ => some "ok") (fun _ => true) [] 978307500
        [([⟨1, some "hello", 100, false, "p"⟩], 978307500)]).processed = [1] := by
  exact ⟨by decide, by decide⟩

/-! ## Ledger invariant -/

/-- Invariant of the relay: the ledger has no duplicate ids, no id was
attempted twice, every attempted id is in the ledger (the id is marked before
the responder call), and there is at most one delivery per ledgered id. -/
def LedgerInv (st : BotState) : Prop :=
  st.processed.Nodup ∧ st.attempts.Nodup ∧
    (∀ i ∈ st.attempts, i ∈ st.processed) ∧
    st.sent.length ≤ st.processed.length

lemma mem_insertId {i id : Nat} {l : List Nat} :
    i ∈ insertId id l ↔ i = id ∨ i ∈ l := by
  rw [insertId]
  split
  · rename_i hmem
    constructor
    · exact Or.inr
    · rintro (rfl | h)
      · exact hmem
      · exact h
  · simp [List.mem_cons]

lemma ledgerInv_processMessage (key : Option String)
    (respond : Nat → List Turn → Option String) (sendOk : Nat → Bool)
    (st : BotState) (r : Row) (h : LedgerInv st) :
    LedgerInv (processMessage key respond sendOk st r) := by
  obtain ⟨h1, h2, h3, h4⟩ := h
  by_cases hmem : r.rowid ∈ st.processed
  · rw [pm_skip hmem]; exact ⟨h1, h2, h3, h4⟩
  · have hnotatt : r.rowid ∉ st.attempts := fun ha => hmem (h3 _ ha)
    have hgoal : ∀ (att : List Nat), att = st.attempts ++ [r.rowid] → ∀ (s : List (String × String)),
        s.length = st.sent.length + 1 →
        att.Nodup ∧ (∀ i ∈ att, i ∈ r.rowid :: st.processed) ∧
          s.length ≤ (r.rowid :: st.processed).length := by
      intro att hatt s hs
      subst hatt
      refine ⟨?_, ?_, ?_⟩
      · simp [List.nodup_append, h2, hnotatt]
      · intro i hi
        rcases List.mem_append.mp hi with hi | hi
        · exact List.mem_cons_of_mem _ (h3 _ hi)
        · simp at hi
          simp [hi]
      · simp only [List.length_cons, hs]
        omega
    cases key with
    | none =>
      rw [pm_none_key hmem]
      refine ⟨List.nodup_cons.mpr ⟨hmem, h1⟩, h2, ?_, ?_⟩
      · exact fun i hi => List.mem_cons_of_mem _ (h3 _ hi)
      · simp only [List.length_append, List.length_cons, List.length_nil]
        omega
    | some k =>
      rcases hr : respond st.requests.length
          (window (st.conversations r.phone ++ [⟨"user", r.text.getD ""⟩])) with _ | resp
      · rw [pm_some_fail hmem hr]
        obtain ⟨g1, g2, g3⟩ := hgoal _ rfl (st.sent ++ [(r.phone, fallback)]) (by simp)
        exact ⟨List.nodup_cons.mpr ⟨hmem, h1⟩, g1, g2, g3⟩
      · rw [pm_some_succ hmem hr]
        obtain ⟨g1, g2, g3⟩ := hgoal _ rfl (st.sent ++ [(r.phone, resp)]) (by simp)
        exact ⟨List.nodup_cons.mpr ⟨hmem, h1⟩, g1, g2, g3⟩

lemma ledgerInv_startupStep (st : BotState) (m : Row) (h : LedgerInv st) :
    LedgerInv { st with processed := insertId m.rowid st.processed } := by
  obtain ⟨h1, h2, h3, h4⟩ := h
  refine ⟨?_, h2, ?_, ?_⟩
  · rw [insertId]
    split
    · exact h1
    · exact List.nodup_cons.mpr ⟨by assumption, h1⟩
  · exact fun i hi => mem_insertId.mpr (Or.inr (h3 _ hi))
  · refine le_trans h4 ?_
    rw [insertId]
    split
    · exact le_refl _
    · simp [List.length_cons]

lemma ledgerInv_runBot (key : Option String)
    (respond : Nat → List Turn → Option String) (sendOk : Nat → Bool)
    (startDb : List Row) (startNow : Int) (ticks : List (List Row × Int)) :
    LedgerInv (runBot key respond sendOk startDb startNow ticks) := by
  have h0 : LedgerInv initState := by
    refine ⟨List.nodup_nil, List.nodup_nil, ?_, le_refl _⟩
    intro i hi
    simp [initState] at hi
  have h1 : LedgerInv (startupScan startDb startNow initState) := by
    refine foldl_pres _ LedgerInv _ _ ?_ h0
    intro b a _ hb
    exact ledgerInv_startupStep b a hb
  refine foldl_pres _ LedgerInv _ _ ?_ h1
  intro b p _ hb
  refine foldl_pres _ LedgerInv _ _ ?_ hb
  intro b2 a2 _ hb2
  exact ledgerInv_processMessage key respond sendOk b2 a2 hb2

/-- Claim C1: over any whole process lifetime (startup scan plus any sequence
of poll ticks over any database snapshots), the ledger never holds an id
twice, no id has more than one responder attempt (idempotence under
re-fetch), every attempted id had already been added to the ledger (the id is
marked seen before the responder call and the send), and there is at most one
delivery per ledgered message. -/
theorem claim_C1 (key : Option String)
    (respond : Nat → List Turn → Option String) (sendOk : Nat → Bool)
    (startDb : List Row) (startNow : Int) (ticks : List (List Row × Int)) :
    (runBot key respond sendOk startDb startNow ticks).processed.Nodup ∧
    (runBot key respond sendOk startDb startNow ticks).attempts.Nodup ∧
    (∀ i ∈ (runBot key respond sendOk startDb startNow ticks).attempts,
        i ∈ (runBot key respond sendOk startDb startNow ticks).processed) ∧
    (runBot key respond sendOk startDb startNow ticks).sent.length
      ≤ (runBot key respond sendOk startDb startNow ticks).processed.length :=
  ledgerInv_runBot key respond sendOk startDb startNow ticks

/-- Claim C1 witness: the invariant evaluated on a run where one tick fetches
the same message twice across two ticks. -/
theorem claim_C1_witness :
    (runBot (some "k") (fun _ _ => some "ok") (fun _ => true) [] 978307500
        [([⟨1, some "hi", 100, false, "p"⟩], 978307500),
         ([⟨1, some "hi", 100, false, "p"⟩], 978307500)]).processed.Nodup ∧
    (runBot (some "k") (fun _ _ => some "ok") (fun _ => true) [] 978307500
        [([⟨1, some "hi", 100, false, "p"⟩], 978307500),
         ([⟨1, some "hi", 100, false, "p"⟩], 978307500)]).attempts.Nodup ∧
    (∀ i ∈ (runBot (some "k") (fun _ _ => some "ok") (fun _ => true) [] 978307500
        [([⟨1, some "hi", 100, false, "p"⟩], 978307500),
         ([⟨1, some "hi", 100, false, "p"⟩], 978307500)]).attempts,
        i ∈ (runBot (some "k") (fun _ _ => some "ok") (fun _ => true) [] 978307500
        [([⟨1, some "hi", 100, false, "p"⟩], 978307500),
         ([⟨1, some "hi", 100, false, "p"⟩], 978307500)]).processed) ∧
    (runBot (some "k") (fun _ _ => some "ok") (fun _ => true) [] 978307500
        [([⟨1, some "hi", 100, false, "p"⟩], 978307500),
         ([⟨1, some "hi", 100, false, "p"⟩], 978307500)]).sent.length
      ≤ (runBot (some "k") (fun _ _ => some "ok") (fun _ => true) [] 978307500
        [([⟨1, some "hi", 100, false, "p"⟩], 978307500),
         ([⟨1, some "hi", 100, false, "p"⟩], 978307500)]).processed.length :=
  claim_C1 (some "k") (fun _ _ => some "ok") (fun _ => true) [] 978307500
    [([⟨1, some "hi", 100, false, "p"⟩], 978307500),
     ([⟨1, some "hi", 100, false, "p"⟩], 978307500)]

/-! ## Conversation shape invariant -/

/-- A conversation as the relay builds it: a sequence of exchanges appended in
arrival order, each exchange being a user turn followed by exactly one
assistant turn, except that an exchange whose responder call failed
contributes only its user turn. -/
inductive ConvOk : List Turn → Prop
  | nil : ConvOk []
  | failedTurn (l : List Turn) (m : String) :
      ConvOk l → ConvOk (l ++ [⟨"user", m⟩])
  | okTurn (l : List Turn) (m resp : String) :
      ConvOk l → ConvOk (l ++ [⟨"user", m⟩, ⟨"assistant", resp⟩])

lemma convOk_processMessage (key : Option String)
    (respond : Nat → List Turn → Option String) (sendOk : Nat → Bool)
    (st : BotState) (r : Row) (h : ∀ p, ConvOk (st.conversations p)) :
    ∀ p, ConvOk ((processMessage key respond sendOk st r).conversations p) := by
  intro p
  by_cases hmem : r.rowid ∈ st.processed
  · rw [pm_skip hmem]; exact h p
  · cases key with
    | none => rw [pm_none_key hmem]; exact h p
    | some k =>
      rcases hr : respond st.requests.length
          (window (st.conversations r.phone ++ [⟨"user", r.text.getD ""⟩])) with _ | resp
      · rw [pm_some_fail hmem hr]
        by_cases hp : p = r.phone
        · subst hp
          simp only [updateConv, if_pos rfl]
          exact ConvOk.failedTurn _ _ (h r.phone)
        · simp only [updateConv, if_neg hp]
          exact h p
      · rw [pm_some_succ hmem hr]
        by_cases hp : p = r.phone
        · subst hp
          simp only [updateConv, if_pos rfl]
          rw [List.append_assoc]
          exact ConvOk.okTurn _ _ _ (h r.phone)
        · simp only [updateConv, if_neg hp]
          exact h p

/-- Claim C8: over any whole process lifetime, every sender's stored
conversation consists, in arrival order, of user turns each followed by
exactly one assistant turn, except that a user turn whose responder call
failed has no assistant turn after it. -/
theorem claim_C8 (key : Option String)
    (respond : Nat → List Turn → Option String) (sendOk : Nat → Bool)
    (startDb : List Row) (startNow : Int) (ticks : List (List Row × Int))
    (phone : String) :
    ConvOk ((runBot key respond sendOk startDb startNow ticks).conversations phone) := by
  have h0 : ∀ p, ConvOk (initState.conversations p) := fun _ => ConvOk.nil
  have h1 : ∀ p, ConvOk ((startupScan startDb startNow initState).conversations p) := by
    refine foldl_pres _ (fun st : BotState => ∀ p, ConvOk (st.conversations p)) _ _ ?_ h0
    intro b a _ hb p
    exact hb p
  refine foldl_pres _ (fun st : BotState => ∀ p, ConvOk (st.conversations p)) _ _ ?_ h1 phone
  intro b q _ hb
  refine foldl_pres _ (fun st : BotState => ∀ p, ConvOk (st.conversations p)) _ _ ?_ hb
  intro b2 a2 _ hb2
  exact convOk_processMessage key respond sendOk b2 a2 hb2

/-! ## Processing order within a tick -/

lemma pm_traces_new {key : Option String} {respond : Nat → List Turn → Option String}
    {sendOk : Nat → Bool} {st : BotState} {r : Row}
    (hnew : r.rowid ∉ st.processed) (hkey : key.isSome = true) :
    (processMessage key respond sendOk st r).attempts = st.attempts ++ [r.rowid] ∧
    (processMessage key respond sendOk st r).sent.map Prod.fst
      = st.sent.map Prod.fst ++ [r.phone] ∧
    (processMessage key respond sendOk st r).processed = r.rowid :: st.processed := by
  cases key with
  | none => simp at hkey
  | some k =>
    rcases hr : respond st.requests.length
        (window (st.conversations r.phone ++ [⟨"user", r.text.getD ""⟩])) with _ | resp
    · rw [pm_some_fail hnew hr]
      exact ⟨rfl, by simp, rfl⟩
    · rw [pm_some_succ hnew hr]
      exact ⟨rfl, by simp, rfl⟩

/-- The not-yet-seen rows of a fetched batch against a ledger, in fetched
order: a row is kept when its ROWID is not in the ledger at its turn, and its
ROWID then joins the ledger for the rest of the batch — exactly the rows for
which the loop body runs past the dedup check. -/
def newRows (proc : List Nat) : List Row → List Row
  | [] => []
  | r :: rs =>
    if r.rowid ∈ proc then newRows proc rs
    else r :: newRows (r.rowid :: proc) rs

lemma foldl_traces {key : Option String} {respond : Nat → List Turn → Option String}
    {sendOk : Nat → Bool} (hkey : key.isSome = true) :
    ∀ (batch : List Row) (st : BotState),
      (batch.foldl (processMessage key respond sendOk) st).attempts
        = st.attempts ++ (newRows st.processed batch).map Row.rowid ∧
      (batch.foldl (processMessage key respond sendOk) st).sent.map Prod.fst
        = st.sent.map Prod.fst ++ (newRows st.processed batch).map Row.phone := by
  intro batch
  induction batch with
  | nil => intro st; simp [newRows]
  | cons r rs ih =>
    intro st
    simp only [List.foldl_cons, newRows]
    by_cases hmem : r.rowid ∈ st.processed
    · rw [if_pos hmem, pm_skip hmem]
      exact ih st
    · rw [if_neg hmem]
      obtain ⟨ha, hs, hp⟩ := pm_traces_new hmem hkey
      obtain ⟨iha, ihs⟩ := ih (processMessage key respond sendOk st r)
      rw [hp] at iha ihs
      constructor
      · rw [iha, ha, List.map_cons, List.append_assoc]
        rfl
      · rw [ihs, hs, List.map_cons, List.append_assoc]
        rfl

/-- Claim C6 (amended): within every poll tick, the not-yet-seen fetched
messages are handled one at a time in the fetched order, which is sorted by
timestamp descending — newest first, the reverse of arrival order. With the
credential present, over any batch (already-seen messages interleaved
anywhere), the responder-attempt trace extends by exactly the ids of the
not-yet-seen messages in fetched order, and the delivery trace extends by
exactly their recipients in the same order: for two new messages in one
batch, the one with the later timestamp has its responder call made and its
reply delivered before the earlier one. -/
theorem claim_C6 (key : Option String) (respond : Nat → List Turn → Option String)
    (sendOk : Nat → Bool) (db : List Row) (now : Int) (st : BotState)
    (hkey : key.isSome = true) :
    SortedDesc (get_new_messages db now) ∧
    (tick key respond sendOk db now st).attempts
      = st.attempts ++ (newRows st.processed (get_new_messages db now)).map Row.rowid ∧
    (tick key respond sendOk db now st).sent.map Prod.fst
      = st.sent.map Prod.fst
        ++ (newRows st.processed (get_new_messages db now)).map Row.phone :=
  ⟨sortedDesc_get_new_messages db now, (foldl_traces hkey _ st).1,
    (foldl_traces hkey _ st).2⟩

/-- Claim C6 witness: a tick over a mixed two-message batch — id 2 (date 200)
is already in the ledger, id 1 (date 100) is fresh — from a state that has
already processed id 2. -/
theorem claim_C6_witness :
    SortedDesc (get_new_messages
      [⟨1, some "a", 100, false, "p1"⟩, ⟨2, some "b", 200, false, "p2"⟩] 978307500) ∧
    (tick (some "k") (fun _ _ => some "ok") (fun _ => true)
        [⟨1, some "a", 100, false, "p1"⟩, ⟨2, some "b", 200, false, "p2"⟩]
        978307500 { initState with processed := [2] }).attempts
      = { initState with processed := [2] }.attempts
        ++ (newRows { initState with processed := [2] }.processed
            (get_new_messages
              [⟨1, some "a", 100, false, "p1"⟩, ⟨2, some "b", 200, false, "p2"⟩]
              978307500)).map Row.rowid ∧
    (tick (some "k") (fun _ _ => some "ok") (fun _ => true)
        [⟨1, some "a", 100, false, "p1"⟩, ⟨2, some "b", 200, false, "p2"⟩]
        978307500 { initState with processed := [2] }).sent.map Prod.fst
      = { initState with processed := [2] }.sent.map Prod.fst
        ++ (newRows { initState with processed := [2] }.processed
            (get_new_messages
              [⟨1, some "a", 100, false, "p1"⟩, ⟨2, some "b", 200, false, "p2"⟩]
              978307500)).map Row.phone :=
  claim_C6 (some "k") (fun _ _ => some "ok") (fun _ => true)
    [⟨1, some "a", 100, false, "p1"⟩, ⟨2, some "b", 200, false, "p2"⟩]
    978307500 { initState with processed := [2] } rfl

/-- Claim C6 counterexample: two fresh messages in the same fetched batch,
id 1 with the earlier timestamp 100 and id 2 with the later timestamp 200;
the trace shows id 2 gets its responder call and its delivery before id 1,
refuting "the one with the earlier timestamp has its user turn appended, its
responder call made, and its reply delivered before the later one". -/
theorem claim_C6_cex :
    (runBot (some "k") (fun _ _ => some "ok") (fun _ => true) [] 978307500
        [([⟨1, some "a", 100, false, "p1"⟩, ⟨2, some "b", 200, false, "p2"⟩],
          978307500)]).attempts = [2, 1] ∧
    (runBot (some "k") (fun _ _ => some "ok") (fun _ => true) [] 978307500
        [([⟨1, some "a", 100, false, "p1"⟩, ⟨2, some "b", 200, false, "p2"⟩],
          978307500)]).sent = [("p2", "ok"), ("p1", "ok")] ∧
    (100 : Int) < 200 := by
  exact ⟨by decide, by decide, by decide⟩

/-! ## Fixed five-minute watermark -/

/-- A message id the run has never ledgered and never attempted to answer. -/
def NeverSeen (id : Nat) (st : BotState) : Prop :=
  id ∉ st.processed ∧ id ∉ st.attempts

lemma neverSeen_processMessage {id : Nat} (key : Option String)
    (respond : Nat → List Turn → Option String) (sendOk : Nat → Bool)
    (st : BotState) (r : Row) (hne : r.rowid ≠ id) (h : NeverSeen id st) :
    NeverSeen id (processMessage key respond sendOk st r) := by
  obtain ⟨h1, h2⟩ := h
  by_cases hmem : r.rowid ∈ st.processed
  · rw [pm_skip hmem]; exact ⟨h1, h2⟩
  · cases key with
    | none =>
      rw [pm_none_key hmem]
      refine ⟨?_, h2⟩
      intro hc
      rcases List.mem_cons.mp hc with heq | hc2
      · exact hne heq.symm
      · exact h1 hc2
    | some k =>
      have hgoal : ∀ (pr : List Nat), pr = r.rowid :: st.processed →
          ∀ (att : List Nat), att = st.attempts ++ [r.rowid] →
          id ∉ pr ∧ id ∉ att := by
        rintro pr rfl att rfl
        constructor
        · intro hc
          rcases List.mem_cons.mp hc with heq | hc2
          · exact hne heq.symm
          · exact h1 hc2
        · intro hc
          rcases List.mem_append.mp hc with hc2 | hc2
          · exact h2 hc2
          · simp at hc2
            exact hne hc2.symm
      rcases hr : respond st.requests.length
          (window (st.conversations r.phone ++ [⟨"user", r.text.getD ""⟩])) with _ | resp
      · rw [pm_some_fail hmem hr]
        exact hgoal _ rfl _ rfl
      · rw [pm_some_succ hmem hr]
        exact hgoal _ rfl _ rfl

lemma fetched_rowid_ne {id : Nat} {db : List Row} {now : Int} {r : Row}
    (hold : ∀ r2 ∈ db, r2.rowid = id → r2.date ≤ appleWatermark now)
    (hr : r ∈ get_new_messages db now) : r.rowid ≠ id := by
  intro heq
  obtain ⟨hdb, hq⟩ := mem_get_new_messages hr
  have hlt := (matchesQuery_iff.mp hq).2.2
  have hle := hold r hdb heq
  omega

lemma neverSeen_tick {id : Nat} (key : Option String)
    (respond : Nat → List Turn → Option String) (sendOk : Nat → Bool)
    (db : List Row) (now : Int) (st : BotState)
    (hold : ∀ r ∈ db, r.rowid = id → r.date ≤ appleWatermark now)
    (h : NeverSeen id st) : NeverSeen id (tick key respond sendOk db now st) := by
  refine foldl_pres _ (NeverSeen id) _ _ ?_ h
  intro b a ha hb
  exact neverSeen_processMessage key respond sendOk b a (fetched_rowid_ne hold ha) hb

lemma neverSeen_startupScan {id : Nat} (db : List Row) (now : Int) (st : BotState)
    (hold : ∀ r ∈ db, r.rowid = id → r.date ≤ appleWatermark now)
    (h : NeverSeen id st) : NeverSeen id (startupScan db now st) := by
  refine foldl_pres _ (NeverSeen id) _ _ ?_ h
  intro b a ha hb
  obtain ⟨h1, h2⟩ := hb
  refine ⟨?_, h2⟩
  intro hc
  rcases mem_insertId.mp hc with heq | hc2
  · exact fetched_rowid_ne hold ha heq.symm
  · exact h1 hc2

/-- Claim C9: the watermark is recomputed at every fetch as 300 seconds before
the current time, so a fetch only returns messages dated after that bound;
consequently a message whose timestamp is at or below the watermark of every
poll at which its database snapshot could be observed is never fetched, never
added to the ledger, and never gets a responder attempt. -/
theorem claim_C9 (key : Option String) (respond : Nat → List Turn → Option String)
    (sendOk : Nat → Bool) (startDb : List Row) (startNow : Int)
    (ticks : List (List Row × Int)) (id : Nat)
    (hstart : ∀ r ∈ startDb, r.rowid = id → r.date ≤ appleWatermark startNow)
    (hticks : ∀ p ∈ ticks, ∀ r ∈ p.1, r.rowid = id → r.date ≤ appleWatermark p.2) :
    (∀ r ∈ get_new_messages startDb startNow, appleWatermark startNow < r.date) ∧
    id ∉ (runBot key respond sendOk startDb startNow ticks).processed ∧
    id ∉ (runBot key respond sendOk startDb startNow ticks).attempts := by
  refine ⟨fun r hr => (matchesQuery_iff.mp (mem_get_new_messages hr).2).2.2, ?_⟩
  have h0 : NeverSeen id initState := by
    constructor <;> intro hc <;> simp [initState] at hc
  have h1 : NeverSeen id (startupScan startDb startNow initState) :=
    neverSeen_startupScan startDb startNow initState hstart h0
  exact foldl_pres _ (NeverSeen id) _ _
    (fun b p hp hb => neverSeen_tick key respond sendOk p.1 p.2 b (hticks p hp) hb) h1

/-- Claim C9 witness: one tick whose only database row is an hour old at the
tick time; it is never ledgered and never attempted. -/
theorem claim_C9_witness :
    (∀ r ∈ get_new_messages ([] : List Row) 978307500,
        appleWatermark 978307500 < r.date) ∧
    5 ∉ (runBot (some "k") (fun _ _ => some "ok") (fun _ => true) [] 978307500
        [([⟨5, some "old", -3600000000000, false, "p"⟩], 978307500)]).processed ∧
    5 ∉ (runBot (some "k") (fun _ _ => some "ok") (fun _ => true) [] 978307500
        [([⟨5, some "old", -3600000000000, false, "p"⟩], 978307500)]).attempts :=
  claim_C9 (some "k") (fun _ _ => some "ok") (fun _ => true) [] 978307500
    [([⟨5, some "old", -3600000000000, false, "p"⟩], 978307500)] 5
    (by decide) (by decide)
